import Mathlib

/-!
Netchat server: trimming, session registry, handshake and broadcast

A shallow embedding of `src/src/Server.cpp` (with `Server.hpp`, `User.hpp`).

* A `std::string` is a list of characters.
* `User` objects live on a heap (address ↦ object); the registry `m_Users`
  maps an id to the address of a `User`, as `std::unordered_map<unsigned int, User*>`
  does.  Address `0` is `nullptr`.  Reading through an address that holds no
  live object is undefined behaviour: the operation then has no result (`none`).
* `unsigned int` is 32 bits wide: `m_Ids++` is computed modulo `2 ^ 32`.
* The dyad networking library is outside the repository.  Its calls are recorded:
  `dyad_write` / `dyad_writef` append `(stream, bytes)` to `written`, `dyad_end`
  appends the stream to `ended`; `dyad_getState` is a parameter of the functions
  that call it.
* Of the console output only the `stderr` diagnostic of `removeUser` is recorded.
-/

namespace Netchat

/-! ## Strings and `trim` -/

/-- A `std::string`: a finite sequence of characters. -/
abbrev Str := List Char

/-- The constant `WHITESPACE = " \n\r\t\f\v"` of `trim`. -/
def WHITESPACE : Str :=
  [Char.ofNat 32, Char.ofNat 10, Char.ofNat 13, Char.ofNat 9, Char.ofNat 12, Char.ofNat 11]

/-- The value `std::string::npos` (the largest `size_t`). -/
def npos : Nat := 2 ^ 64 - 1

/-- `std::string::find_first_not_of`: index of the first character of `str` that is
not one of `chars`; `none` stands for `npos`. -/
def find_first_not_of (str chars : Str) : Option Nat :=
  match str with
  | [] => none
  | c :: cs => if c ∈ chars then (find_first_not_of cs chars).map (· + 1) else some 0

/-- `std::string::find_last_not_of`: index of the last character of `str` that is
not one of `chars`; `none` stands for `npos`. -/
def find_last_not_of (str chars : Str) : Option Nat :=
  match str with
  | [] => none
  | c :: cs =>
    match find_last_not_of cs chars with
    | some i => some (i + 1)
    | none => if c ∈ chars then none else some 0

/-- `std::string::substr(pos, count)` for `pos ≤ size()`. -/
def substr (str : Str) (pos count : Nat) : Str := (str.drop pos).take count

/-- The helper `trim` of `Server.cpp` (the one in `Client.cpp` is the same text).
When no character outside `WHITESPACE` is found the argument is returned as it is.
`last - first + 1` does not wrap: `first ≤ last` (see `first_le_last`). -/
def trim (str : Str) : Str :=
  match find_first_not_of str WHITESPACE with
  | none => str
  | some first =>
    let last := (find_last_not_of str WHITESPACE).getD npos
    substr str first (last - first + 1)

/-- `std::iscntrl` in the "C" locale: codes 0–31 and 127. -/
def iscntrl (c : Char) : Bool := c.toNat < 32 || c.toNat == 127

/-- `isEffectivelyEmpty`: no character of `str` is a non-control character. -/
def isEffectivelyEmpty : Str → Bool
  | [] => true
  | c :: cs => if !iscntrl c then false else isEffectivelyEmpty cs

/-! ## Maps keyed by numbers (`std::unordered_map`, and the heap) -/

/-- `m.at(key)`: the mapped value, `none` when `at` throws `std::out_of_range`. -/
def mapAt {α : Type} : List (Nat × α) → Nat → Option α
  | [], _ => none
  | (k, v) :: m, key => if k = key then some v else mapAt m key

/-- `m[key] = v`: overwrite the value of an existing key, else insert. -/
def mapAssign {α : Type} : List (Nat × α) → Nat → α → List (Nat × α)
  | [], key, v => [(key, v)]
  | (k, w) :: m, key, v => if k = key then (k, v) :: m else (k, w) :: mapAssign m key v

/-- `m.erase(key)`. -/
def mapErase {α : Type} (m : List (Nat × α)) (key : Nat) : List (Nat × α) :=
  m.filter (fun e => e.1 ≠ key)

/-- The keys of a map. -/
def mapKeys {α : Type} (m : List (Nat × α)) : List Nat := m.map Prod.fst

/-! ## Data model -/

/-- `struct User` (the back pointer `server` is left out: there is one server). -/
structure User where
  id : Nat
  address : Str
  nick : Str
  userStream : Nat
deriving DecidableEq, Repr

/-- The stream states of dyad (`dyad_getState`). -/
inductive DyadState where
  | CLOSED | CLOSING | CONNECTING | CONNECTED | LISTENING
deriving DecidableEq, Repr

/-- What `removeUser` prints to `stderr`. -/
inductive Diagnostic where
  | errorDeletingUser
deriving DecidableEq, Repr

/-- The server together with the file-level counter `m_Ids`, the heap of `User`
objects and the record of the dyad calls made so far. -/
structure Server where
  m_Ids : Nat
  m_Users : List (Nat × Nat)
  heap : List (Nat × User)
  written : List (Nat × Str)
  ended : List Nat
  stderr : List Diagnostic
deriving DecidableEq, Repr

/-- Number of values of `unsigned int`. -/
def UINT_RANGE : Nat := 2 ^ 32

/-- `Server::Server`: `m_Ids = 0`, no users. -/
def Server.init : Server :=
  { m_Ids := 0, m_Users := [], heap := [], written := [], ended := [], stderr := [] }

/-- The address returned by `new User`: one that holds no live object, never `nullptr`. -/
def newAddr (heap : List (Nat × User)) : Nat := (mapKeys heap).foldr max 0 + 1

/-! ## Operations of `Server` -/

/-- Reading through a `User*`: `none` for `nullptr` and for an address without a live object. -/
def deref (heap : List (Nat × User)) (p : Nat) : Option User :=
  if p = 0 then none else mapAt heap p

/-- `Server::addUser(nickname, event)`; `remote` is `event->remote`, `remoteAddress`
is `dyad_getAddress(event->remote)`.  Returns the pointer to the new user. -/
def addUser (s : Server) (nickname : Str) (remote : Nat) (remoteAddress : Str) :
    Nat × Server :=
  let user : User :=
    { id := s.m_Ids, address := remoteAddress, nick := nickname, userStream := remote }
  let p := newAddr s.heap
  (p, { s with
          m_Ids := (s.m_Ids + 1) % UINT_RANGE
          heap := s.heap ++ [(p, user)]
          m_Users := mapAssign s.m_Users user.id p })

/-- `Server::removeUser(id)`. -/
def removeUser (s : Server) (id : Nat) : Option Server :=
  match mapAt s.m_Users id with
  | none => some { s with stderr := s.stderr ++ [Diagnostic.errorDeletingUser] }
  | some p =>
    match deref s.heap p with
    | none => none
    | some user =>
      some { s with
               ended := s.ended ++ [user.userStream]
               heap := mapErase s.heap p
               m_Users := mapErase s.m_Users id }

/-- The loop of `Server::broadcast` over the values of `m_Users`: the writes it makes. -/
def broadcastLoop (getState : Nat → DyadState) (heap : List (Nat × User))
    (formattedMsg : Str) : List (Nat × Nat) → Option (List (Nat × Str))
  | [] => some []
  | (_, p) :: rest =>
    if p = 0 then broadcastLoop getState heap formattedMsg rest
    else
      match mapAt heap p with
      | none => none
      | some user =>
        match broadcastLoop getState heap formattedMsg rest with
        | none => none
        | some ws =>
          if getState user.userStream = DyadState.CONNECTED then
            if user.nick ≠ [] then some ((user.userStream, formattedMsg) :: ws)
            else some ws
          else some ws

/-- `Server::broadcast(message)`. -/
def broadcast (getState : Nat → DyadState) (s : Server) (message : Str) : Option Server :=
  let formattedMsg := message ++ "\r\n".toList
  match broadcastLoop getState s.heap formattedMsg s.m_Users with
  | none => none
  | some ws => some { s with written := s.written ++ ws }

/-- The prompt written by `Server::onAccept`. -/
def welcomeMsg : Str := "Welcome to the chat! Please enter your nickname: ".toList

/-- The notice written by `Server::onData` for a blank chat line. -/
def errorMsg : Str := "[Server] Please send non-blank messages!".toList

/-- `Server::onAccept(event)`.  Returns the pointer to the user made for the client. -/
def onAccept (s : Server) (remote : Nat) (remoteAddress : Str) : Nat × Server :=
  let (user, s1) := addUser s [] remote remoteAddress
  (user, { s1 with written := s1.written ++ [(remote, welcomeMsg)] })

/-- `Server::onData(event)`; `user` is `event->udata`, `data` is
`std::string(event->data, event->size)`. -/
def onData (getState : Nat → DyadState) (s : Server) (user : Nat) (data : Str) :
    Option Server :=
  if user = 0 then some s
  else
    match mapAt s.heap user with
    | none => none
    | some u =>
      let recvData := trim data
      if u.nick = [] then
        let s1 := { s with heap := mapAssign s.heap user { u with nick := recvData } }
        let joinMsg := "'".toList ++ recvData ++ "'".toList ++ " has joined the chat".toList
        broadcast getState s1 joinMsg
      else if recvData ≠ [] then
        let chatMsg := "[".toList ++ u.nick ++ "]: ".toList ++ recvData
        broadcast getState s chatMsg
      else if isEffectivelyEmpty recvData then
        some { s with written := s.written ++ [(u.userStream, errorMsg)] }
      else some s

/-- `Server::onClose(event)`; `user` is `event->udata`. -/
def onClose (s : Server) (user : Nat) : Option Server :=
  match deref s.heap user with
  | none => none
  | some u => removeUser s u.id

/-! ## Notions used to state the properties -/

/-- The sessions of the registry in iteration order: the objects its pointers point to. -/
def sessions (s : Server) : List User := s.m_Users.filterMap (fun e => deref s.heap e.2)

/-- Every non-null pointer of the registry points to a live `User`. -/
def Live (s : Server) : Prop := ∀ e ∈ s.m_Users, e.2 ≠ 0 → (mapAt s.heap e.2).isSome = true

/-- The pointer `p` is a value of the registry. -/
def Registered (s : Server) (p : Nat) : Prop := p ∈ s.m_Users.map Prod.snd

instance (s : Server) : Decidable (Live s) := by
  unfold Live; infer_instance

instance (s : Server) (p : Nat) : Decidable (Registered s p) := by
  unfold Registered; infer_instance

/-- The sessions with a nickname whose stream dyad reports as connected. -/
def audience (getState : Nat → DyadState) (s : Server) : List User :=
  (sessions s).filter
    (fun u => decide (u.nick ≠ []) && decide (getState u.userStream = DyadState.CONNECTED))

/-- The payloads among the writes `ws` that went to `stream`, in order. -/
def received (ws : List (Nat × Str)) (stream : Nat) : List Str :=
  (ws.filter (fun w => w.1 = stream)).map Prod.snd

/-- No two sessions of the registry share a stream. -/
def DistinctStreams (s : Server) : Prop := ((sessions s).map User.userStream).Nodup

instance (s : Server) : Decidable (DistinctStreams s) := by
  unfold DistinctStreams; infer_instance

/-! ## Concrete states used as test inputs -/

/-- A session that has a nickname. -/
def exAlice : User :=
  { id := 0, address := "10.0.0.1".toList, nick := "Alice".toList, userStream := 10 }

/-- A second session that has a nickname. -/
def exBob : User :=
  { id := 1, address := "10.0.0.2".toList, nick := "Bob".toList, userStream := 11 }

/-- A session that has not sent its nickname yet. -/
def exGuest : User :=
  { id := 2, address := "10.0.0.3".toList, nick := [], userStream := 12 }

/-- The server after three accepts, two of the clients having sent a nickname. -/
def exServer : Server :=
  { m_Ids := 3, m_Users := [(0, 1), (1, 2), (2, 3)],
    heap := [(1, exAlice), (2, exBob), (3, exGuest)],
    written := [], ended := [], stderr := [] }

/-- Every stream is connected. -/
def allConnected : Nat → DyadState := fun _ => DyadState.CONNECTED

/-- Stream 11 (of `exBob`) is closing, the others are connected. -/
def bobClosing : Nat → DyadState :=
  fun h => if h = 11 then DyadState.CLOSING else DyadState.CONNECTED

/-! ## Sequences of calls and of events -/

/-- The registry holds no null pointer, every pointer in it points to a live `User`, and
no two entries hold the same pointer. -/
def WellFormed (s : Server) : Prop :=
  (∀ e ∈ s.m_Users, e.2 ≠ 0 ∧ (mapAt s.heap e.2).isSome = true) ∧
    (s.m_Users.map Prod.snd).Nodup

instance (s : Server) : Decidable (WellFormed s) := by
  unfold WellFormed; infer_instance

/-- An event delivered by dyad to a handler of the server. -/
inductive Event where
  | accept (remote : Nat) (remoteAddress : Str)
  | data (getState : Nat → DyadState) (user : Nat) (bytes : Str)
  | close (user : Nat)

/-- The handler that dyad calls for an event. -/
def handle (s : Server) : Event → Option Server
  | Event.accept remote a => some (onAccept s remote a).2
  | Event.data gs user bytes => onData gs s user bytes
  | Event.close user => onClose s user

/-- Handles the events in order. -/
def runEvents : Server → List Event → Option Server
  | s, [] => some s
  | s, e :: es =>
    match handle s e with
    | none => none
    | some s1 => runEvents s1 es

/-- One client connects and sends the nickname "Alice". -/
def exTrace : List Event :=
  [Event.accept 10 "10.0.0.1".toList, Event.data allConnected 1 "Alice\r\n".toList]

/-- The state of the server after `exTrace`. -/
def exAfterTrace : Server :=
  { m_Ids := 1, m_Users := [(0, 1)], heap := [(1, exAlice)],
    written := [(10, welcomeMsg), (10, "'Alice' has joined the chat\r\n".toList)],
    ended := [], stderr := [] }

/-- While the events are handled one after the other from `s`, the pointer `p` is a
value of the registry after every one of them (`true` also when a handler has no
result, where the run ends). -/
def staysRegistered (p : Nat) : Server → List Event → Bool
  | _, [] => true
  | s, e :: es =>
    match handle s e with
    | none => true
    | some s1 => decide (Registered s1 p) && staysRegistered p s1 es

/-- Events handled after `exTrace`: a second client connects and sends the nickname
"Carol", `exAlice` sends a chat line that reads like a nickname and an empty line, and
the second client disconnects. -/
def exEvents : List Event :=
  [Event.accept 12 "10.0.0.3".toList, Event.data allConnected 2 "Carol\r\n".toList,
   Event.data allConnected 1 "Zoe\n".toList, Event.data allConnected 1 [], Event.close 2]

/-- The state of the server after `exTrace` and then `exEvents`. -/
def exAfterEvents : Server :=
  { m_Ids := 2, m_Users := [(0, 1)], heap := [(1, exAlice)],
    written :=
      [(10, welcomeMsg), (10, "'Alice' has joined the chat\r\n".toList),
       (12, welcomeMsg),
       (10, "'Carol' has joined the chat\r\n".toList),
       (12, "'Carol' has joined the chat\r\n".toList),
       (10, "[Alice]: Zoe\r\n".toList), (12, "[Alice]: Zoe\r\n".toList),
       (10, errorMsg)],
    ended := [12], stderr := [] }

/-! ## Properties of `trim` -/

theorem find_first_none (x chars : Str) :
    find_first_not_of x chars = none ↔ ∀ c ∈ x, c ∈ chars := by
  induction x with
  | nil => simp [find_first_not_of]
  | cons a t ih =>
    by_cases ha : a ∈ chars
    · simp [find_first_not_of, ha, ih]
    · simp [find_first_not_of, ha]

theorem find_last_none (x chars : Str) :
    find_last_not_of x chars = none ↔ ∀ c ∈ x, c ∈ chars := by
  induction x with
  | nil => simp [find_last_not_of]
  | cons a t ih =>
    cases hl : find_last_not_of t chars with
    | none =>
      have := ih.mp hl
      by_cases ha : a ∈ chars
      · simp [find_last_not_of, hl, ha]; exact this
      · simp [find_last_not_of, hl, ha]
    | some j =>
      have hne : ¬ ∀ c ∈ t, c ∈ chars := fun h => by
        have := ih.mpr h; rw [hl] at this; cases this
      simp only [find_last_not_of, hl]
      constructor
      · intro h; cases h
      · intro h; exact absurd (fun c hc => h c (List.mem_cons_of_mem _ hc)) hne

theorem find_first_some (x chars : Str) (i : Nat)
    (h : find_first_not_of x chars = some i) :
    (∀ c ∈ x.take i, c ∈ chars) ∧ ∃ c, x[i]? = some c ∧ c ∉ chars := by
  induction x generalizing i with
  | nil => simp [find_first_not_of] at h
  | cons a t ih =>
    by_cases ha : a ∈ chars
    · simp only [find_first_not_of, ha, if_true, Option.map_eq_some'] at h
      obtain ⟨k, hk, rfl⟩ := h
      obtain ⟨h1, c, h2, h3⟩ := ih k hk
      refine ⟨?_, c, by simpa using h2, h3⟩
      intro d hd
      simp only [List.take_succ_cons, List.mem_cons] at hd
      rcases hd with rfl | hd
      · exact ha
      · exact h1 d hd
    · simp only [find_first_not_of, ha, if_false, Option.some.injEq] at h
      subst h
      exact ⟨by simp, a, by simp, ha⟩

theorem find_last_some (x chars : Str) (j : Nat)
    (h : find_last_not_of x chars = some j) :
    (∀ c ∈ x.drop (j + 1), c ∈ chars) ∧ ∃ c, x[j]? = some c ∧ c ∉ chars := by
  induction x generalizing j with
  | nil => simp [find_last_not_of] at h
  | cons a t ih =>
    cases hl : find_last_not_of t chars with
    | none =>
      have hall := (find_last_none t chars).mp hl
      by_cases ha : a ∈ chars
      · simp [find_last_not_of, hl, ha] at h
      · simp only [find_last_not_of, hl, ha, if_false, Option.some.injEq] at h
        subst h
        exact ⟨by simpa using hall, a, by simp, ha⟩
    | some k =>
      simp only [find_last_not_of, hl, Option.some.injEq] at h
      subst h
      obtain ⟨h1, c, h2, h3⟩ := ih k hl
      exact ⟨by simpa using h1, c, by simpa using h2, h3⟩

/-- The first character outside `chars` is not after the last one. -/
theorem first_le_last (x chars : Str) (i j : Nat)
    (hi : find_first_not_of x chars = some i) (hj : find_last_not_of x chars = some j) :
    i ≤ j := by
  obtain ⟨h1, -⟩ := find_first_some x chars i hi
  obtain ⟨-, c, h2, h3⟩ := find_last_some x chars j hj
  by_contra hlt
  push_neg at hlt
  apply h3
  apply h1
  have hjlen : j < x.length := by
    by_contra hge
    rw [List.getElem?_eq_none (by omega)] at h2
    cases h2
  rw [List.mem_iff_getElem?]
  refine ⟨j, ?_⟩
  rw [List.getElem?_take_of_lt hlt]
  exact h2

/-- Shape of `trim` on a string that has a character outside `WHITESPACE`. -/
theorem trim_of_first (x : Str) (i : Nat) (hi : find_first_not_of x WHITESPACE = some i) :
    ∃ j, find_last_not_of x WHITESPACE = some j ∧ i ≤ j ∧ j < x.length ∧
      trim x = (x.drop i).take (j - i + 1) := by
  cases hj : find_last_not_of x WHITESPACE with
  | none =>
    have := (find_first_none x WHITESPACE).mpr ((find_last_none x WHITESPACE).mp hj)
    rw [hi] at this; cases this
  | some j =>
    refine ⟨j, rfl, first_le_last x _ i j hi hj, ?_, ?_⟩
    · obtain ⟨-, c, h2, -⟩ := find_last_some x _ j hj
      by_contra hge
      rw [List.getElem?_eq_none (by omega)] at h2
      cases h2
    · simp [trim, hi, hj, substr]

theorem find_first_zero (m chars : Str) (c : Char) (h : m[0]? = some c) (hc : c ∉ chars) :
    find_first_not_of m chars = some 0 := by
  cases m with
  | nil => simp at h
  | cons a t =>
    simp only [List.getElem?_cons_zero, Option.some.injEq] at h
    subst h
    simp [find_first_not_of, hc]

theorem find_last_end (m chars : Str) (d : Char) (h : m[m.length - 1]? = some d)
    (hd : d ∉ chars) : find_last_not_of m chars = some (m.length - 1) := by
  induction m with
  | nil => simp at h
  | cons a t ih =>
    cases t with
    | nil =>
      simp only [List.length_singleton, Nat.sub_self, List.getElem?_cons_zero,
        Option.some.injEq] at h
      subst h
      simp [find_last_not_of, hd]
    | cons b u =>
      have h' : (b :: u)[(b :: u).length - 1]? = some d := by
        simpa using h
      have := ih h'
      simp only [find_last_not_of] at this ⊢
      rw [this]
      simp

/-- A non-empty string whose two end characters are outside `WHITESPACE` is left as it is. -/
theorem trim_of_ends (m : Str) (c d : Char) (h0 : m[0]? = some c) (hc : c ∉ WHITESPACE)
    (h1 : m[m.length - 1]? = some d) (hd : d ∉ WHITESPACE) : trim m = m := by
  have hf := find_first_zero m WHITESPACE c h0 hc
  have hl := find_last_end m WHITESPACE d h1 hd
  have hpos : 0 < m.length := by
    cases m with
    | nil => simp at h0
    | cons a t => simp
  simp only [trim, hf, hl, substr, Option.getD_some, List.drop_zero, Nat.sub_zero]
  rw [Nat.sub_add_cancel hpos, List.take_length]

/-- Every string is a whitespace prefix, its trimmed text and a whitespace suffix. -/
theorem trim_split (x : Str) :
    ∃ p s : Str, (∀ c ∈ p, c ∈ WHITESPACE) ∧ (∀ c ∈ s, c ∈ WHITESPACE) ∧
      x = p ++ trim x ++ s := by
  cases hi : find_first_not_of x WHITESPACE with
  | none => exact ⟨[], [], by simp, by simp, by simp [trim, hi]⟩
  | some i =>
    obtain ⟨j, hj, hij, hjl, ht⟩ := trim_of_first x i hi
    obtain ⟨hp, -⟩ := find_first_some x _ i hi
    obtain ⟨hs, -⟩ := find_last_some x _ j hj
    refine ⟨x.take i, x.drop (j + 1), hp, hs, ?_⟩
    rw [ht]
    have h1 : x.drop (j + 1) = (x.drop i).drop (j - i + 1) := by
      rw [List.drop_drop]; congr 1; omega
    rw [h1, List.append_assoc, List.take_append_drop, List.take_append_drop]

/-! ## Maps and broadcast -/

theorem mapAt_mapAssign {α : Type} (m : List (Nat × α)) (k : Nat) (v : α) (q : Nat) :
    mapAt (mapAssign m k v) q = if k = q then some v else mapAt m q := by
  induction m with
  | nil => simp [mapAssign, mapAt]
  | cons e t ih =>
    obtain ⟨k', w⟩ := e
    by_cases hk : k' = k
    · subst hk
      by_cases hq : k' = q <;> simp [mapAssign, mapAt, hq]
    · by_cases hq : k' = q
      · subst hq
        have : ¬ k = k' := fun h => hk h.symm
        simp [mapAssign, mapAt, hk, this]
      · simp [mapAssign, mapAt, hk, hq, ih]

theorem broadcastLoop_eq (gs : Nat → DyadState) (heap : List (Nat × User)) (msg : Str)
    (m : List (Nat × Nat)) (hl : ∀ e ∈ m, e.2 ≠ 0 → (mapAt heap e.2).isSome = true) :
    broadcastLoop gs heap msg m =
      some (((m.filterMap (fun e => deref heap e.2)).filter
        (fun u => decide (u.nick ≠ []) && decide (gs u.userStream = DyadState.CONNECTED))).map
        (fun u => (u.userStream, msg))) := by
  induction m with
  | nil => simp [broadcastLoop]
  | cons e t ih =>
    obtain ⟨k, p⟩ := e
    have iht := ih (fun e he => hl e (List.mem_cons_of_mem _ he))
    by_cases hp : p = 0
    · simp [broadcastLoop, hp, deref, iht]
    · have hlive := hl (k, p) (List.mem_cons_self _ _) hp
      obtain ⟨u, hu⟩ := Option.isSome_iff_exists.mp hlive
      simp only [] at hu
      by_cases hc : gs u.userStream = DyadState.CONNECTED
      · by_cases hn : u.nick = []
        · simp [broadcastLoop, hp, deref, iht, hu, hc, hn]
        · simp [broadcastLoop, hp, deref, iht, hu, hc, hn]
      · simp [broadcastLoop, hp, deref, iht, hu, hc]

theorem broadcast_eq (gs : Nat → DyadState) (s : Server) (m : Str) (hl : Live s) :
    broadcast gs s m = some { s with
      written := s.written ++ (audience gs s).map (fun u => (u.userStream, m ++ "\r\n".toList)) } := by
  unfold broadcast
  simp only []
  rw [broadcastLoop_eq gs s.heap _ s.m_Users hl]
  rfl

theorem received_audience (l : List User) (P : User → Bool) (x : Str)
    (hd : (l.map User.userStream).Nodup) (S : User) (hS : S ∈ l) :
    received ((l.filter P).map (fun u => (u.userStream, x))) S.userStream =
      if P S = true then [x] else [] := by
  induction l with
  | nil => simp at hS
  | cons a t ih =>
    simp only [List.map_cons, List.nodup_cons, List.mem_map, not_exists, not_and] at hd
    obtain ⟨ha, ht⟩ := hd
    have hnone : ∀ v ∈ t, v.userStream ≠ a.userStream := fun v hv h => ha v hv h
    have hrec : ∀ (t : List User), (∀ v ∈ t, v.userStream ≠ a.userStream) →
        received ((t.filter P).map (fun u => (u.userStream, x))) a.userStream = [] := by
      intro t ht
      induction t with
      | nil => simp [received]
      | cons b r ihr =>
        have hb := ht b (List.mem_cons_self _ _)
        have := ihr (fun v hv => ht v (List.mem_cons_of_mem _ hv))
        by_cases hP : P b = true
        · simp only [List.filter_cons, hP, if_true, List.map_cons, received] at this ⊢
          simp [hb, this]
        · simp only [List.filter_cons, hP, received] at this ⊢
          simpa using this
    rcases List.mem_cons.mp hS with rfl | hSt
    · by_cases hP : P S = true
      · have := hrec t hnone
        simp only [received] at this
        simp [received, List.filter_cons, hP, this]
      · have := hrec t hnone
        simp only [received] at this
        simp [received, List.filter_cons, hP, this]
    · have hne : a.userStream ≠ S.userStream := fun h => ha S hSt h.symm
      have := ih ht hSt
      by_cases hP : P a = true
      · simp only [received] at this ⊢
        simp [List.filter_cons, hP, hne, this]
      · simp only [received] at this ⊢
        simp [List.filter_cons, hP, this]

theorem received_none (l : List User) (x : Str) (h : Nat)
    (hh : ∀ S ∈ l, S.userStream ≠ h) :
    received (l.map (fun u => (u.userStream, x))) h = [] := by
  induction l with
  | nil => simp [received]
  | cons a t ih =>
    have ha := hh a (List.mem_cons_self _ _)
    have := ih (fun v hv => hh v (List.mem_cons_of_mem _ hv))
    simp only [received] at this ⊢
    simp [ha, this]


theorem mapAt_eq_none {α : Type} (m : List (Nat × α)) (k : Nat) :
    mapAt m k = none ↔ k ∉ mapKeys m := by
  induction m with
  | nil => simp [mapAt, mapKeys]
  | cons e t ih =>
    obtain ⟨k', w⟩ := e
    by_cases hk : k' = k
    · simp [mapAt, mapKeys, hk]
    · have : ¬ k = k' := fun h => hk h.symm
      simp only [mapKeys] at ih
      simp [mapAt, mapKeys, hk, this, ih]

/-- Overwriting the object at a live address keeps every registered pointer live. -/
theorem live_store (s : Server) (p : Nat) (v : User) (hl : Live s) :
    Live { s with heap := mapAssign s.heap p v } := by
  intro e he h0
  have := hl e he h0
  simp only [mapAt_mapAssign]
  by_cases hp : p = e.2
  · simp [hp]
  · simpa [hp] using this

theorem trim_eq_nil (x : Str) : trim x = [] ↔ x = [] := by
  constructor
  · intro h
    cases hi : find_first_not_of x WHITESPACE with
    | none => simpa [trim, hi] using h
    | some i =>
      obtain ⟨j, hj, hij, hjl, ht⟩ := trim_of_first x i hi
      rw [ht] at h
      have := congrArg List.length h
      simp only [List.length_take, List.length_drop, List.length_nil] at this
      omega
  · rintro rfl; rfl

/-- The join message of `onData`, with the terminator that `broadcast` appends. -/
theorem joinMsg_eq (t : Str) :
    "'".toList ++ t ++ "'".toList ++ " has joined the chat".toList ++ "\r\n".toList =
      "'".toList ++ t ++ "' has joined the chat\r\n".toList := by
  simp only [List.append_assoc]
  rfl

/-- `onData` for a user without nickname: the trimmed data becomes the nickname, then the
join message is broadcast in the updated state. -/
theorem onData_unauth (gs : Nat → DyadState) (s : Server) (p : Nat) (u : User) (data : Str)
    (hl : Live s) (hu : deref s.heap p = some u) (hn : u.nick = []) :
    onData gs s p data = some { s with
      heap := mapAssign s.heap p { u with nick := trim data }
      written := s.written ++
        (audience gs { s with heap := mapAssign s.heap p { u with nick := trim data } }).map
          (fun v => (v.userStream, "'".toList ++ trim data ++ "' has joined the chat\r\n".toList)) } := by
  have hp : p ≠ 0 := by
    intro h; simp [deref, h] at hu
  have hu' : mapAt s.heap p = some u := by simpa [deref, hp] using hu
  have hl' := live_store s p { u with nick := trim data } hl
  simp only [onData, hp, if_false, hu', hn, if_true]
  rw [broadcast_eq gs _ _ hl', joinMsg_eq]

/-- `onData` for a user with a nickname and a line that is not empty after `trim`:
the chat message is broadcast, nothing else changes. -/
theorem onData_chat (gs : Nat → DyadState) (s : Server) (p : Nat) (u : User) (data : Str)
    (hl : Live s) (hu : deref s.heap p = some u) (hn : u.nick ≠ []) (ht : trim data ≠ []) :
    onData gs s p data = some { s with
      written := s.written ++ (audience gs s).map
        (fun v => (v.userStream, "[".toList ++ u.nick ++ "]: ".toList ++ trim data ++ "\r\n".toList)) } := by
  have hp : p ≠ 0 := by
    intro h; simp [deref, h] at hu
  have hu' : mapAt s.heap p = some u := by simpa [deref, hp] using hu
  simp only [onData, hp, if_false, hu', hn, ht, ne_eq, not_false_eq_true, if_true]
  rw [broadcast_eq gs _ _ hl]

/-- `onData` for a user with a nickname and data that is empty after `trim`: the notice
is written to the sender, nothing else changes. -/
theorem onData_blank (gs : Nat → DyadState) (s : Server) (p : Nat) (u : User) (data : Str)
    (hu : deref s.heap p = some u) (hn : u.nick ≠ []) (ht : trim data = []) :
    onData gs s p data =
      some { s with written := s.written ++ [(u.userStream, errorMsg)] } := by
  have hp : p ≠ 0 := by
    intro h; simp [deref, h] at hu
  have hu' : mapAt s.heap p = some u := by simpa [deref, hp] using hu
  simp only [onData, hp, if_false, hu', hn, ht, ne_eq, not_true_eq_false,
    isEffectivelyEmpty, if_true]

/-- A registered live user is one of the sessions. -/
theorem mem_sessions (s : Server) (p : Nat) (u : User) (hreg : Registered s p)
    (hu : deref s.heap p = some u) : u ∈ sessions s := by
  simp only [Registered, List.mem_map] at hreg
  obtain ⟨e, he, rfl⟩ := hreg
  simp only [sessions, List.mem_filterMap]
  exact ⟨e, he, hu⟩

theorem deref_store_self (heap : List (Nat × User)) (p : Nat) (v : User) (hp : p ≠ 0) :
    deref (mapAssign heap p v) p = some v := by
  simp [deref, hp, mapAt_mapAssign]

theorem deref_store_other (heap : List (Nat × User)) (p q : Nat) (v : User) (hq : q ≠ p) :
    deref (mapAssign heap p v) q = deref heap q := by
  have : ¬ p = q := fun h => hq h.symm
  simp [deref, mapAt_mapAssign, this]

/-! ## Claims on `trim` and `broadcast` -/

/-- C4. Trimming is idempotent: for every string `x`, `trim (trim x) = trim x`. -/
theorem trim_idempotent (x : Str) : trim (trim x) = trim x := by
  cases hi : find_first_not_of x WHITESPACE with
  | none => simp [trim, hi]
  | some i =>
    obtain ⟨j, hj, hij, hjl, ht⟩ := trim_of_first x i hi
    obtain ⟨-, c, hc1, hc2⟩ := find_first_some x _ i hi
    obtain ⟨-, d, hd1, hd2⟩ := find_last_some x _ j hj
    rw [ht]
    have hlen : ((x.drop i).take (j - i + 1)).length = j - i + 1 := by
      simp only [List.length_take, List.length_drop]; omega
    apply trim_of_ends _ c d _ hc2 _ hd2
    · rw [List.getElem?_take_of_lt (by omega), List.getElem?_drop]; simpa using hc1
    · rw [hlen, List.getElem?_take_of_lt (by omega), List.getElem?_drop]
      have : i + (j - i + 1 - 1) = j := by omega
      rw [this]; exact hd1

/-- C5. Trimming removes only leading and trailing whitespace: every string `x` is
`p ++ trim x ++ s` for two strings `p` and `s` made only of characters of `WHITESPACE`. -/
theorem trim_removes_only_ends (x : Str) :
    ∃ p s : Str, (∀ c ∈ p, c ∈ WHITESPACE) ∧ (∀ c ∈ s, c ∈ WHITESPACE) ∧
      x = p ++ trim x ++ s := by
  cases hi : find_first_not_of x WHITESPACE with
  | none => exact ⟨[], [], by simp, by simp, by simp [trim, hi]⟩
  | some i =>
    obtain ⟨j, hj, hij, hjl, ht⟩ := trim_of_first x i hi
    refine ⟨x.take i, x.drop (j + 1), (find_first_some x _ i hi).1,
      (find_last_some x _ j hj).1, ?_⟩
    rw [ht, List.append_assoc]
    have h1 : x.drop (j + 1) = (x.drop i).drop (j - i + 1) := by
      rw [List.drop_drop]; congr 1; omega
    rw [h1, List.take_append_drop, List.take_append_drop]

/-- C2 (as the code has it). When every registered pointer is live and no two sessions
share a stream, `broadcast m` returns, changes nothing but the record of writes, and a
session `S` of the registry receives `m` followed by "\r\n" exactly once if `S.nick` is
non-empty and its stream is in state `CONNECTED`, and nothing otherwise; a stream that
belongs to no session receives nothing. -/
theorem broadcast_audience (gs : Nat → DyadState) (s : Server) (m : Str)
    (hl : Live s) (hd : DistinctStreams s) :
    ∃ ws, broadcast gs s m = some { s with written := s.written ++ ws } ∧
      (∀ S ∈ sessions s, received ws S.userStream =
        if S.nick ≠ [] ∧ gs S.userStream = DyadState.CONNECTED then [m ++ "\r\n".toList]
        else []) ∧
      (∀ h, (∀ S ∈ sessions s, S.userStream ≠ h) → received ws h = []) := by
  refine ⟨_, broadcast_eq gs s m hl, ?_, ?_⟩
  · intro S hS
    have := received_audience (sessions s)
      (fun u => decide (u.nick ≠ []) && decide (gs u.userStream = DyadState.CONNECTED))
      (m ++ "\r\n".toList) hd S hS
    simp only [audience]
    rw [this]
    simp
  · intro h hh
    apply received_none
    intro S hS
    exact hh S (List.mem_of_mem_filter hS)

/-- Witness for C2: `exServer` with every stream connected; `exAlice` and `exBob` have a
nickname, `exGuest` has none. -/
theorem broadcast_audience_witness :
    Live exServer ∧ DistinctStreams exServer ∧
    ∃ ws, broadcast allConnected exServer "hi".toList =
        some { exServer with written := exServer.written ++ ws } ∧
      (∀ S ∈ sessions exServer, received ws S.userStream =
        if S.nick ≠ [] ∧ allConnected S.userStream = DyadState.CONNECTED then
          ["hi".toList ++ "\r\n".toList]
        else []) ∧
      (∀ h, (∀ S ∈ sessions exServer, S.userStream ≠ h) → received ws h = []) :=
  ⟨by decide, by decide,
    broadcast_audience allConnected exServer "hi".toList (by decide) (by decide)⟩

/-- Counterexample to C2 as stated: `exBob` is registered and has a non-empty nickname,
but its stream is not in state `CONNECTED`, and `broadcast` writes nothing to it. -/
theorem broadcast_skips_closing_stream :
    exBob ∈ sessions exServer ∧ exBob.nick ≠ [] ∧
    (broadcast bobClosing exServer "hi".toList).map
      (fun s1 => received s1.written exBob.userStream) = some [] := by
  decide

/-! ## Claims on `removeUser` and `onData` -/

/-- C8. Removing an unknown id is a no-op: when `id` is not a key of `m_Users`,
`removeUser id` returns normally, the failed lookup is reported on `stderr`, and the
registry, the `User` objects, the counter and the record of `dyad_write` and `dyad_end`
calls are exactly what they were (no transport is closed). -/
theorem removeUser_unknown_id (s : Server) (id : Nat) (h : id ∉ mapKeys s.m_Users) :
    ∃ s1, removeUser s id = some s1 ∧
      s1.m_Users = s.m_Users ∧ s1.heap = s.heap ∧ s1.ended = s.ended ∧
      s1.written = s.written ∧ s1.m_Ids = s.m_Ids ∧
      s1.stderr = s.stderr ++ [Diagnostic.errorDeletingUser] := by
  have hnone : mapAt s.m_Users id = none := (mapAt_eq_none s.m_Users id).mpr h
  refine ⟨{ s with stderr := s.stderr ++ [Diagnostic.errorDeletingUser] }, ?_, rfl, rfl, rfl,
    rfl, rfl, rfl⟩
  simp only [removeUser, hnone]

/-- Witness for C8: id 7 is not registered in `exServer`. -/
theorem removeUser_unknown_id_witness :
    7 ∉ mapKeys exServer.m_Users ∧
    ∃ s1, removeUser exServer 7 = some s1 ∧
      s1.m_Users = exServer.m_Users ∧ s1.heap = exServer.heap ∧ s1.ended = exServer.ended ∧
      s1.written = exServer.written ∧ s1.m_Ids = exServer.m_Ids ∧
      s1.stderr = exServer.stderr ++ [Diagnostic.errorDeletingUser] :=
  ⟨by decide, removeUser_unknown_id exServer 7 (by decide)⟩

/-- `trim` leaves a string without a character outside `WHITESPACE` as it is. -/
theorem trim_all_whitespace (x : Str) (h : ∀ c ∈ x, c ∈ WHITESPACE) : trim x = x := by
  simp [trim, (find_first_none x WHITESPACE).mpr h]

/-- A user with a nickname sends a non-empty line made of `WHITESPACE` characters only:
`onData` broadcasts the line as chat text and does not write the notice. -/
theorem onData_whitespace_line (gs : Nat → DyadState) (s : Server) (p : Nat) (u : User)
    (data : Str) (hl : Live s) (hu : deref s.heap p = some u) (hn : u.nick ≠ [])
    (hd : data ≠ []) (hw : ∀ c ∈ data, c ∈ WHITESPACE) :
    onData gs s p data = some { s with
      written := s.written ++ (audience gs s).map
        (fun v => (v.userStream, "[".toList ++ u.nick ++ "]: ".toList ++ data ++ "\r\n".toList)) } := by
  have ht : trim data = data := trim_all_whitespace data hw
  have := onData_chat gs s p u data hl hu hn (by rw [ht]; exact hd)
  rw [ht] at this
  exact this

/-- C1 (failing input). `exAlice` has a nickname and sends the line "\n".  `trim` returns
the line as it is, so `onData` takes it for chat text: "[Alice]: \n\r\n" is written to every
nicknamed session and the notice `errorMsg` is written to nobody. -/
theorem onData_blank_line_is_broadcast :
    deref exServer.heap 1 = some exAlice ∧ trim "\n".toList = "\n".toList ∧
    onData allConnected exServer 1 "\n".toList =
      some { exServer with
        written := [(exAlice.userStream, "[Alice]: \n\r\n".toList),
                    (exBob.userStream, "[Alice]: \n\r\n".toList)] } ∧
    (onData allConnected exServer 1 "\n".toList).map
      (fun s1 => decide ((exAlice.userStream, errorMsg) ∈ s1.written)) = some false := by
  decide

/-- C6 (as the code has it). A registered user `u` without nickname sends a line whose
trimmed text `t` is not empty: `onData` returns, stores `t` as the nickname of `u`, leaves
the registry as it is, and writes "'" ++ t ++ "' has joined the chat\r\n" once to each
session that, after the assignment, has a nickname and a connected stream, and nothing
else; `u` itself is among them when its stream is connected. -/
theorem onData_nickname_join (gs : Nat → DyadState) (s : Server) (p : Nat) (u : User)
    (data : Str) (hl : Live s) (hreg : Registered s p) (hu : deref s.heap p = some u)
    (hn : u.nick = []) (ht : trim data ≠ []) :
    ∃ s1, onData gs s p data = some s1 ∧
      deref s1.heap p = some { u with nick := trim data } ∧
      (∀ q, q ≠ p → deref s1.heap q = deref s.heap q) ∧
      s1.m_Users = s.m_Users ∧
      s1.written = s.written ++ (audience gs s1).map
        (fun v => (v.userStream,
          "'".toList ++ trim data ++ "' has joined the chat\r\n".toList)) ∧
      (∀ v ∈ audience gs s1, v ∈ sessions s1 ∧ v.nick ≠ [] ∧
        gs v.userStream = DyadState.CONNECTED) ∧
      (gs u.userStream = DyadState.CONNECTED →
        { u with nick := trim data } ∈ audience gs s1) := by
  have hp : p ≠ 0 := by
    intro h; simp [deref, h] at hu
  refine ⟨_, onData_unauth gs s p u data hl hu hn, deref_store_self _ _ _ hp,
    fun q hq => deref_store_other _ _ _ _ hq, rfl, rfl, ?_, ?_⟩
  · intro v hv
    simpa [audience, List.mem_filter] using hv
  · intro hc
    have hmem : ({ u with nick := trim data } : User) ∈
        sessions { s with heap := mapAssign s.heap p { u with nick := trim data } } :=
      mem_sessions _ p _ hreg (deref_store_self _ _ _ hp)
    simp only [audience, List.mem_filter, Bool.and_eq_true, decide_eq_true_eq]
    exact ⟨hmem, ht, hc⟩

/-- Witness for C6: `exGuest` sends "Carol\r\n" while every stream is connected. -/
theorem onData_nickname_join_witness :
    Live exServer ∧ Registered exServer 3 ∧ deref exServer.heap 3 = some exGuest ∧
    exGuest.nick = [] ∧ trim "Carol\r\n".toList ≠ [] ∧
    ∃ s1, onData allConnected exServer 3 "Carol\r\n".toList = some s1 ∧
      deref s1.heap 3 = some { exGuest with nick := trim "Carol\r\n".toList } ∧
      (∀ q, q ≠ 3 → deref s1.heap q = deref exServer.heap q) ∧
      s1.m_Users = exServer.m_Users ∧
      s1.written = exServer.written ++ (audience allConnected s1).map
        (fun v => (v.userStream,
          "'".toList ++ trim "Carol\r\n".toList ++ "' has joined the chat\r\n".toList)) ∧
      (∀ v ∈ audience allConnected s1, v ∈ sessions s1 ∧ v.nick ≠ [] ∧
        allConnected v.userStream = DyadState.CONNECTED) ∧
      (allConnected exGuest.userStream = DyadState.CONNECTED →
        { exGuest with nick := trim "Carol\r\n".toList } ∈ audience allConnected s1) :=
  ⟨by decide, by decide, by decide, by decide, by decide,
    onData_nickname_join allConnected exServer 3 exGuest "Carol\r\n".toList
      (by decide) (by decide) (by decide) (by decide)
      (by decide)⟩

/-- Counterexample to C6 as stated: `exGuest` sends "Carol\r\n"; `exBob` is registered and
has a nickname, but its stream is not connected and the join message is not written to it. -/
theorem onData_join_skips_closing_stream :
    exBob ∈ sessions exServer ∧ exBob.nick ≠ [] ∧
    deref exServer.heap 3 = some exGuest ∧ exGuest.nick = [] ∧
    trim "Carol\r\n".toList = "Carol".toList ∧
    (onData bobClosing exServer 3 "Carol\r\n".toList).map
      (fun s1 => received s1.written exBob.userStream) = some [] := by
  decide

/-- A message that ends with the terminator of `broadcast` is not the blank-line notice. -/
theorem terminated_ne_errorMsg (x : Str) : x ++ "\r\n".toList ≠ errorMsg := by
  intro h
  have h2 := congrArg List.getLast? h
  rw [List.getLast?_append_of_ne_nil _ (by decide)] at h2
  revert h2
  decide

/-- C7 (as the code has it). A registered user `u` with nickname `n` sends a line whose
trimmed text `t` is not empty: `onData` returns, changes neither the registry nor any
`User`, and writes "[" ++ n ++ "]: " ++ t ++ "\r\n" once to each session that has a
nickname and a connected stream, and nothing else (so no rejection notice); `u` itself is
among them when its stream is connected; `t` is the received data without a whitespace
prefix and a whitespace suffix. -/
theorem onData_chat_broadcast (gs : Nat → DyadState) (s : Server) (p : Nat) (u : User)
    (data : Str) (hl : Live s) (hreg : Registered s p) (hu : deref s.heap p = some u)
    (hn : u.nick ≠ []) (ht : trim data ≠ []) :
    ∃ s1, onData gs s p data = some s1 ∧
      s1.heap = s.heap ∧ s1.m_Users = s.m_Users ∧
      s1.written = s.written ++ (audience gs s).map
        (fun v => (v.userStream,
          "[".toList ++ u.nick ++ "]: ".toList ++ trim data ++ "\r\n".toList)) ∧
      (∀ v ∈ audience gs s, v ∈ sessions s ∧ v.nick ≠ [] ∧
        gs v.userStream = DyadState.CONNECTED) ∧
      (gs u.userStream = DyadState.CONNECTED → u ∈ audience gs s) ∧
      (∀ w ∈ s1.written, w ∉ s.written → w.2 ≠ errorMsg) ∧
      (∃ pre suf : Str, (∀ c ∈ pre, c ∈ WHITESPACE) ∧ (∀ c ∈ suf, c ∈ WHITESPACE) ∧
        data = pre ++ trim data ++ suf) := by
  refine ⟨_, onData_chat gs s p u data hl hu hn ht, rfl, rfl, rfl, ?_, ?_, ?_, trim_split data⟩
  · intro v hv
    simpa [audience, List.mem_filter] using hv
  · intro hc
    simp only [audience, List.mem_filter, Bool.and_eq_true, decide_eq_true_eq]
    exact ⟨mem_sessions s p u hreg hu, hn, hc⟩
  · intro w hw hnew
    simp only [List.mem_append, List.mem_map] at hw
    rcases hw with hw | ⟨v, -, rfl⟩
    · exact absurd hw hnew
    · exact terminated_ne_errorMsg _

/-- Witness for C7: `exAlice` sends "Hello\n" while every stream is connected. -/
theorem onData_chat_broadcast_witness :
    Live exServer ∧ Registered exServer 1 ∧ deref exServer.heap 1 = some exAlice ∧
    exAlice.nick ≠ [] ∧ trim "Hello\n".toList ≠ [] ∧
    ∃ s1, onData allConnected exServer 1 "Hello\n".toList = some s1 ∧
      s1.heap = exServer.heap ∧ s1.m_Users = exServer.m_Users ∧
      s1.written = exServer.written ++ (audience allConnected exServer).map
        (fun v => (v.userStream,
          "[".toList ++ exAlice.nick ++ "]: ".toList ++ trim "Hello\n".toList ++
            "\r\n".toList)) ∧
      (∀ v ∈ audience allConnected exServer, v ∈ sessions exServer ∧ v.nick ≠ [] ∧
        allConnected v.userStream = DyadState.CONNECTED) ∧
      (allConnected exAlice.userStream = DyadState.CONNECTED →
        exAlice ∈ audience allConnected exServer) ∧
      (∀ w ∈ s1.written, w ∉ exServer.written → w.2 ≠ errorMsg) ∧
      (∃ pre suf : Str, (∀ c ∈ pre, c ∈ WHITESPACE) ∧ (∀ c ∈ suf, c ∈ WHITESPACE) ∧
        "Hello\n".toList = pre ++ trim "Hello\n".toList ++ suf) :=
  ⟨by decide, by decide, by decide, by decide, by decide,
    onData_chat_broadcast allConnected exServer 1 exAlice "Hello\n".toList
      (by decide) (by decide) (by decide) (by decide)
      (by decide)⟩

/-- Counterexample to C7 as stated: `exAlice` sends "Hello\n"; `exBob` is registered and
has a nickname, but its stream is not connected and the chat line is not written to it. -/
theorem onData_chat_skips_closing_stream :
    exBob ∈ sessions exServer ∧ exBob.nick ≠ [] ∧
    deref exServer.heap 1 = some exAlice ∧ exAlice.nick ≠ [] ∧
    trim "Hello\n".toList = "Hello".toList ∧
    (onData bobClosing exServer 1 "Hello\n".toList).map
      (fun s1 => received s1.written exBob.userStream) = some [] := by
  decide

/-- C10 (as the code has it). A registered user `u` without nickname sends any data:
`onData` returns, stores `trim data` as the nickname of `u` and writes the join message
"'" ++ trim data ++ "' has joined the chat\r\n" once to each session that then has a
nickname and a connected stream.  The user is active afterwards exactly when the adopted
nickname `trim data` is non-empty.  When it is non-empty, `u` is among the recipients of
the join message if its stream is connected, and every later data of `u` is handled as
chat and leaves all nicknames as they are: it is broadcast under the adopted nickname, or
answered with the notice when its trimmed text is empty.  When `trim data` is empty the
nickname stays empty, the user is as it was, and its next data is again taken as the
nickname. -/
theorem onData_handshake (gs : Nat → DyadState) (s : Server) (p : Nat) (u : User)
    (data : Str) (hl : Live s) (hreg : Registered s p) (hu : deref s.heap p = some u)
    (hn : u.nick = []) :
    ∃ s1, onData gs s p data = some s1 ∧
      deref s1.heap p = some { u with nick := trim data } ∧
      s1.written = s.written ++ (audience gs s1).map
        (fun v => (v.userStream,
          "'".toList ++ trim data ++ "' has joined the chat\r\n".toList)) ∧
      (trim data ≠ [] →
        (gs u.userStream = DyadState.CONNECTED →
          { u with nick := trim data } ∈ audience gs s1) ∧
        ∀ (gs2 : Nat → DyadState) (data2 : Str),
          ∃ s2, onData gs2 s1 p data2 = some s2 ∧ s2.heap = s1.heap ∧
            s2.written = s1.written ++
              if trim data2 = [] then [(u.userStream, errorMsg)]
              else (audience gs2 s1).map
                (fun v => (v.userStream,
                  "[".toList ++ trim data ++ "]: ".toList ++ trim data2 ++ "\r\n".toList))) ∧
      (trim data = [] →
        deref s1.heap p = some u ∧
        ({ u with nick := trim data } : User) ∉ audience gs s1 ∧
        ∀ (gs2 : Nat → DyadState) (data2 : Str),
          ∃ s2, onData gs2 s1 p data2 = some s2 ∧
            deref s2.heap p = some { u with nick := trim data2 }) := by
  have hp : p ≠ 0 := by
    intro h; simp [deref, h] at hu
  have hl1 := live_store s p { u with nick := trim data } hl
  have hself := deref_store_self s.heap p { u with nick := trim data } hp
  refine ⟨_, onData_unauth gs s p u data hl hu hn, hself, rfl, ?_, ?_⟩
  · intro ht
    constructor
    · intro hc
      have hmem : ({ u with nick := trim data } : User) ∈
          sessions { s with heap := mapAssign s.heap p { u with nick := trim data } } :=
        mem_sessions _ p _ hreg hself
      simp only [audience, List.mem_filter, Bool.and_eq_true, decide_eq_true_eq]
      exact ⟨hmem, ht, hc⟩
    · intro gs2 data2
      by_cases hd2 : trim data2 = []
      · refine ⟨_, onData_blank gs2 _ p { u with nick := trim data } data2 hself ht hd2,
          rfl, ?_⟩
        simp [hd2]
      · refine ⟨_, onData_chat gs2 _ p { u with nick := trim data } data2
          (fun e he h0 => hl1 e he h0) hself ht hd2, rfl, ?_⟩
        simp [hd2]
  · intro ht
    have hu2 : ({ u with nick := trim data } : User) = u := by
      cases u
      simp only [User.mk.injEq, true_and, and_true] at hn ⊢
      rw [hn, ht]
    have hself2 : deref (mapAssign s.heap p { u with nick := trim data }) p = some u := by
      rw [hself, hu2]
    refine ⟨hself2, ?_, ?_⟩
    · simp [audience, ht]
    · intro gs2 data2
      have h2 := onData_unauth gs2
        { s with
            heap := mapAssign s.heap p { u with nick := trim data }
            written := s.written ++
              (audience gs { s with heap := mapAssign s.heap p { u with nick := trim data } }).map
                (fun v => (v.userStream,
                  "'".toList ++ trim data ++ "' has joined the chat\r\n".toList)) }
        p u data2 (fun e he h0 => hl1 e he h0) hself2 hn
      exact ⟨_, h2, deref_store_self _ _ _ hp⟩

/-- Witness for C10: `exGuest` sends "Carol\r\n". -/
theorem onData_handshake_witness :
    Live exServer ∧ Registered exServer 3 ∧ deref exServer.heap 3 = some exGuest ∧
    exGuest.nick = [] ∧
    ∃ s1, onData allConnected exServer 3 "Carol\r\n".toList = some s1 ∧
      deref s1.heap 3 = some { exGuest with nick := trim "Carol\r\n".toList } ∧
      s1.written = exServer.written ++ (audience allConnected s1).map
        (fun v => (v.userStream,
          "'".toList ++ trim "Carol\r\n".toList ++ "' has joined the chat\r\n".toList)) ∧
      (trim "Carol\r\n".toList ≠ [] →
        (allConnected exGuest.userStream = DyadState.CONNECTED →
          { exGuest with nick := trim "Carol\r\n".toList } ∈ audience allConnected s1) ∧
        ∀ (gs2 : Nat → DyadState) (data2 : Str),
          ∃ s2, onData gs2 s1 3 data2 = some s2 ∧ s2.heap = s1.heap ∧
            s2.written = s1.written ++
              if trim data2 = [] then [(exGuest.userStream, errorMsg)]
              else (audience gs2 s1).map
                (fun v => (v.userStream,
                  "[".toList ++ trim "Carol\r\n".toList ++ "]: ".toList ++ trim data2 ++
                    "\r\n".toList))) ∧
      (trim "Carol\r\n".toList = [] →
        deref s1.heap 3 = some exGuest ∧
        ({ exGuest with nick := trim "Carol\r\n".toList } : User) ∉ audience allConnected s1 ∧
        ∀ (gs2 : Nat → DyadState) (data2 : Str),
          ∃ s2, onData gs2 s1 3 data2 = some s2 ∧
            deref s2.heap 3 = some { exGuest with nick := trim data2 }) :=
  ⟨by decide, by decide, by decide, by decide,
    onData_handshake allConnected exServer 3 exGuest "Carol\r\n".toList
      (by decide) (by decide) (by decide) (by decide)⟩

/-- Counterexample to C10 as stated: `exGuest` (no nickname) sends empty data, whose
trimmed text is empty.  The nickname stays empty, the join message is not written to
`exGuest`, and the next line "Carol\n" is taken as the nickname, not as chat. -/
theorem onData_empty_line_stays_unauthenticated :
    deref exServer.heap 3 = some exGuest ∧ exGuest.nick = [] ∧ trim ([] : Str) = [] ∧
    (onData allConnected exServer 3 []).bind (fun s1 => deref s1.heap 3) = some exGuest ∧
    (onData allConnected exServer 3 []).map
      (fun s1 => received s1.written exGuest.userStream) = some [] ∧
    ((onData allConnected exServer 3 []).bind
      (fun s1 => onData allConnected s1 3 "Carol\n".toList)).bind
        (fun s2 => deref s2.heap 3) = some { exGuest with nick := "Carol".toList } := by
  decide


/-! ## The id counter -/

theorem le_foldr_max (l : List Nat) (k : Nat) (h : k ∈ l) : k ≤ l.foldr max 0 := by
  induction l with
  | nil => simp at h
  | cons a t ih =>
    simp only [List.foldr_cons]
    rcases List.mem_cons.mp h with rfl | ht
    · exact le_max_left _ _
    · exact le_trans (ih ht) (le_max_right _ _)

/-- The address chosen by `new` holds no live object. -/
theorem newAddr_fresh (heap : List (Nat × User)) : newAddr heap ∉ mapKeys heap := by
  intro h
  have := le_foldr_max _ _ h
  simp only [newAddr] at this
  omega

theorem newAddr_ne_zero (heap : List (Nat × User)) : newAddr heap ≠ 0 := by
  simp [newAddr]

theorem mapAt_append {α : Type} (m n : List (Nat × α)) (k : Nat) :
    mapAt (m ++ n) k = (mapAt m k).orElse (fun _ => mapAt n k) := by
  induction m with
  | nil => simp [mapAt]
  | cons e t ih =>
    obtain ⟨k', w⟩ := e
    by_cases hk : k' = k
    · simp [mapAt, hk]
    · simp [mapAt, hk, ih]

theorem mapAt_mapErase {α : Type} (m : List (Nat × α)) (k q : Nat) (hq : q ≠ k) :
    mapAt (mapErase m k) q = mapAt m q := by
  induction m with
  | nil => simp [mapErase, mapAt]
  | cons e t ih =>
    obtain ⟨k', w⟩ := e
    unfold mapErase at ih ⊢
    by_cases hk : k' = k
    · have hkq : ¬ k' = q := fun h => hq (h.symm.trans hk)
      rw [List.filter_cons_of_neg (by simpa using hk)]
      simp only [mapAt, hkq, if_false]
      exact ih
    · rw [List.filter_cons_of_pos (by simpa using hk)]
      by_cases hkq : k' = q
      · simp [mapAt, hkq]
      · simp only [mapAt, hkq, if_false]
        exact ih

theorem mem_mapAssign {α : Type} (m : List (Nat × α)) (k : Nat) (v : α) (e : Nat × α)
    (he : e ∈ mapAssign m k v) : e ∈ m ∨ e = (k, v) := by
  induction m with
  | nil => simpa [mapAssign] using he
  | cons x t ih =>
    obtain ⟨k', w⟩ := x
    by_cases hk : k' = k
    · simp only [mapAssign, hk, if_true, List.mem_cons] at he
      rcases he with rfl | he
      · exact Or.inr rfl
      · exact Or.inl (List.mem_cons_of_mem _ he)
    · simp only [mapAssign, hk, if_false, List.mem_cons] at he
      rcases he with rfl | he
      · exact Or.inl (List.mem_cons_self _ _)
      · rcases ih he with h | h
        · exact Or.inl (List.mem_cons_of_mem _ h)
        · exact Or.inr h

theorem nodup_mapAssign (m : List (Nat × Nat)) (k p : Nat) (hp : p ∉ m.map Prod.snd)
    (hd : (m.map Prod.snd).Nodup) : ((mapAssign m k p).map Prod.snd).Nodup := by
  induction m with
  | nil => simp [mapAssign]
  | cons x t ih =>
    obtain ⟨k', w⟩ := x
    simp only [List.map_cons, List.mem_cons, not_or, List.nodup_cons] at hp hd
    by_cases hk : k' = k
    · simp only [mapAssign, hk, if_true, List.map_cons, List.nodup_cons]
      exact ⟨hp.2, hd.2⟩
    · simp only [mapAssign, hk, if_false, List.map_cons, List.nodup_cons]
      refine ⟨?_, ih hp.2 hd.2⟩
      intro hmem
      obtain ⟨e, he, hew⟩ := List.mem_map.mp hmem
      rcases mem_mapAssign t k p e he with h | h
      · exact hd.1 (List.mem_map.mpr ⟨e, h, hew⟩)
      · rw [h] at hew; exact hp.1 hew

/-- `addUser` keeps the registry well formed. -/
theorem wellFormed_addUser (s : Server) (n : Str) (r : Nat) (a : Str) (h : WellFormed s) :
    WellFormed (addUser s n r a).2 := by
  obtain ⟨hlive, hnd⟩ := h
  have hfresh : newAddr s.heap ∉ s.m_Users.map Prod.snd := by
    intro hmem
    obtain ⟨e, he, hep⟩ := List.mem_map.mp hmem
    have := (hlive e he).2
    rw [hep, (mapAt_eq_none s.heap _).mpr (newAddr_fresh s.heap)] at this
    cases this
  constructor
  · intro e he
    rcases mem_mapAssign _ _ _ e he with h | h
    · obtain ⟨h0, hs⟩ := hlive e h
      refine ⟨h0, ?_⟩
      obtain ⟨u, hu⟩ := Option.isSome_iff_exists.mp hs
      simp [addUser, mapAt_append, hu]
    · subst h
      refine ⟨newAddr_ne_zero _, ?_⟩
      have hf := (mapAt_eq_none s.heap _).mpr (newAddr_fresh s.heap)
      simp [addUser, mapAt_append, hf, mapAt]
  · exact nodup_mapAssign _ _ _ hfresh hnd

theorem mem_of_mapAt {α : Type} (m : List (Nat × α)) (k : Nat) (v : α)
    (h : mapAt m k = some v) : (k, v) ∈ m := by
  induction m with
  | nil => simp [mapAt] at h
  | cons e t ih =>
    obtain ⟨k', w⟩ := e
    by_cases hk : k' = k
    · simp only [mapAt, hk, if_true, Option.some.injEq] at h
      subst h; subst hk
      exact List.mem_cons_self _ _
    · simp only [mapAt, hk, if_false] at h
      exact List.mem_cons_of_mem _ (ih h)

/-- `removeUser` returns on a well-formed registry and keeps it well formed. -/
theorem wellFormed_removeUser (s : Server) (id : Nat) (h : WellFormed s) :
    ∃ s1, removeUser s id = some s1 ∧ WellFormed s1 ∧ s1.m_Ids = s.m_Ids := by
  obtain ⟨hlive, hnd⟩ := h
  cases hp : mapAt s.m_Users id with
  | none =>
    exact ⟨{ s with stderr := s.stderr ++ [Diagnostic.errorDeletingUser] },
      by simp only [removeUser, hp], ⟨hlive, hnd⟩, rfl⟩
  | some p =>
    have hmem := mem_of_mapAt _ _ _ hp
    obtain ⟨h0, hs⟩ := hlive _ hmem
    obtain ⟨u, hu⟩ := Option.isSome_iff_exists.mp hs
    simp only [] at hu h0
    have hu : deref s.heap p = some u := by simpa [deref, h0] using hu
    refine ⟨{ s with ended := s.ended ++ [u.userStream], heap := mapErase s.heap p,
                     m_Users := mapErase s.m_Users id },
      by simp only [removeUser, hp, hu], ⟨?_, ?_⟩, rfl⟩
    · intro e he
      simp only [mapErase, List.mem_filter, decide_eq_true_eq] at he
      obtain ⟨hem, hek⟩ := he
      obtain ⟨h0, hs⟩ := hlive e hem
      refine ⟨h0, ?_⟩
      have hne : e.2 ≠ p := by
        intro hep
        have := List.inj_on_of_nodup_map hnd hem hmem hep
        exact hek (by rw [this])
      show (mapAt (mapErase s.heap p) e.2).isSome = true
      rw [mapAt_mapErase _ _ _ hne]; exact hs
    · show ((mapErase s.m_Users id).map Prod.snd).Nodup
      exact hnd.sublist ((List.filter_sublist _).map _)

theorem wellFormed_init : WellFormed Server.init := by
  simp [WellFormed, Server.init]

/-- The state after `onAccept`, field by field. -/
theorem onAccept_eq (s : Server) (r : Nat) (a : Str) :
    onAccept s r a = (newAddr s.heap,
      { s with
          m_Ids := (s.m_Ids + 1) % UINT_RANGE
          heap := s.heap ++
            [(newAddr s.heap, { id := s.m_Ids, address := a, nick := [], userStream := r })]
          m_Users := mapAssign s.m_Users s.m_Ids (newAddr s.heap)
          written := s.written ++ [(r, welcomeMsg)] }) := rfl

theorem broadcast_fields (gs : Nat → DyadState) (s s1 : Server) (m : Str)
    (h : broadcast gs s m = some s1) :
    s1.m_Ids = s.m_Ids ∧ s1.m_Users = s.m_Users ∧ s1.heap = s.heap := by
  unfold broadcast at h
  simp only [] at h
  cases hb : broadcastLoop gs s.heap (m ++ "\r\n".toList) s.m_Users with
  | none => rw [hb] at h; cases h
  | some ws =>
    rw [hb] at h
    simp only [Option.some.injEq] at h
    subst h
    exact ⟨rfl, rfl, rfl⟩

theorem wellFormed_live (s : Server) (h : WellFormed s) : Live s :=
  fun e he _ => (h.1 e he).2

/-- `broadcast` changes nothing but the record of writes. -/
theorem wellFormed_broadcast (gs : Nat → DyadState) (s s1 : Server) (m : Str)
    (h : broadcast gs s m = some s1) (hwf : WellFormed s) : WellFormed s1 := by
  obtain ⟨-, hU, hH⟩ := broadcast_fields gs s s1 m h
  unfold WellFormed
  rw [hU, hH]
  exact hwf

/-- `onData` keeps the registry well formed. -/
theorem wellFormed_onData (gs : Nat → DyadState) (s s1 : Server) (p : Nat) (data : Str)
    (h : onData gs s p data = some s1) (hwf : WellFormed s) : WellFormed s1 := by
  unfold onData at h
  by_cases hp : p = 0
  · simp only [hp, if_true, Option.some.injEq] at h
    subst h; exact hwf
  · simp only [hp, if_false] at h
    cases hu : mapAt s.heap p with
    | none => rw [hu] at h; cases h
    | some u =>
      rw [hu] at h
      simp only [] at h
      by_cases hn : u.nick = []
      · simp only [hn, if_true] at h
        refine wellFormed_broadcast _ _ _ _ h ⟨fun e he => ?_, hwf.2⟩
        obtain ⟨h0, hs⟩ := hwf.1 e he
        refine ⟨h0, ?_⟩
        show (mapAt (mapAssign s.heap p _) e.2).isSome = true
        rw [mapAt_mapAssign]
        by_cases hpe : p = e.2
        · simp [hpe]
        · simpa [hpe] using hs
      · simp only [hn, if_false] at h
        by_cases ht : trim data = []
        · simp only [ht, ne_eq, not_true_eq_false, if_false] at h
          simp only [isEffectivelyEmpty, if_true, Option.some.injEq] at h
          subst h; exact hwf
        · simp only [ht, ne_eq, not_false_eq_true, if_true] at h
          exact wellFormed_broadcast _ _ _ _ h hwf

/-- `onAccept` keeps the registry well formed. -/
theorem wellFormed_onAccept (s : Server) (r : Nat) (a : Str) (hwf : WellFormed s) :
    WellFormed (onAccept s r a).2 :=
  wellFormed_addUser s [] r a hwf

/-- `onClose` keeps the registry well formed. -/
theorem wellFormed_onClose (s s1 : Server) (p : Nat) (h : onClose s p = some s1)
    (hwf : WellFormed s) : WellFormed s1 := by
  unfold onClose at h
  cases hu : deref s.heap p with
  | none => rw [hu] at h; cases h
  | some u =>
    rw [hu] at h
    obtain ⟨s0, h0, hwf0, -⟩ := wellFormed_removeUser s u.id hwf
    simp only [] at h
    rw [h0] at h
    simp only [Option.some.injEq] at h
    subst h; exact hwf0

/-- Every state that the server reaches from its start is well formed. -/
theorem runEvents_wellFormed (es : List Event) : ∀ s s1 : Server,
    WellFormed s → runEvents s es = some s1 → WellFormed s1 := by
  induction es with
  | nil =>
    intro s s1 hwf hrun
    simp only [runEvents, Option.some.injEq] at hrun
    subst hrun; exact hwf
  | cons e es ih =>
    intro s s1 hwf hrun
    simp only [runEvents] at hrun
    cases he : handle s e with
    | none => rw [he] at hrun; cases hrun
    | some s0 =>
      rw [he] at hrun
      refine ih s0 s1 ?_ hrun
      cases e with
      | accept r a =>
        simp only [handle, Option.some.injEq] at he
        subst he; exact wellFormed_onAccept s r a hwf
      | data gs p d => exact wellFormed_onData gs s s0 p d he hwf
      | close p => exact wellFormed_onClose s s0 p he hwf


/-! ## The nickname of an active session -/

theorem mapAt_mapErase_self {α : Type} (m : List (Nat × α)) (k : Nat) :
    mapAt (mapErase m k) k = none := by
  rw [mapAt_eq_none]
  simp only [mapKeys, mapErase, List.mem_map, List.mem_filter, decide_eq_true_eq, not_exists,
    not_and]
  intro e he hk
  exact he.2 hk

/-- What `onData` does to the heap: nothing, or it stores the trimmed data as the nickname
of a user that had none. -/
theorem onData_heap (gs : Nat → DyadState) (s s1 : Server) (q : Nat) (data : Str)
    (h : onData gs s q data = some s1) :
    s1.heap = s.heap ∨ ∃ v, deref s.heap q = some v ∧ v.nick = [] ∧
      s1.heap = mapAssign s.heap q { v with nick := trim data } := by
  unfold onData at h
  by_cases hq : q = 0
  · simp only [hq, if_true, Option.some.injEq] at h
    subst h; exact Or.inl rfl
  · simp only [hq, if_false] at h
    cases hv : mapAt s.heap q with
    | none => rw [hv] at h; cases h
    | some v =>
      rw [hv] at h
      simp only [] at h
      by_cases hn : v.nick = []
      · simp only [hn, if_true] at h
        obtain ⟨-, -, hH⟩ := broadcast_fields _ _ _ _ h
        exact Or.inr ⟨v, by simp [deref, hq, hv], hn, hH⟩
      · simp only [hn, if_false] at h
        by_cases ht : trim data = []
        · simp only [ht, ne_eq, not_true_eq_false, if_false] at h
          simp only [isEffectivelyEmpty, if_true, Option.some.injEq] at h
          subst h; exact Or.inl rfl
        · simp only [ht, ne_eq, not_false_eq_true, if_true] at h
          obtain ⟨-, -, hH⟩ := broadcast_fields _ _ _ _ h
          exact Or.inl hH

/-- What `removeUser` does to the heap: nothing, or it deletes one object. -/
theorem removeUser_heap (s s1 : Server) (id : Nat) (h : removeUser s id = some s1) :
    s1.heap = s.heap ∨ ∃ q, s1.heap = mapErase s.heap q := by
  unfold removeUser at h
  cases hp : mapAt s.m_Users id with
  | none =>
    rw [hp] at h
    simp only [Option.some.injEq] at h
    subst h; exact Or.inl rfl
  | some q =>
    rw [hp] at h
    simp only [] at h
    cases hv : deref s.heap q with
    | none => rw [hv] at h; cases h
    | some v =>
      rw [hv] at h
      simp only [Option.some.injEq] at h
      subst h; exact Or.inr ⟨q, rfl⟩

/-- One event leaves a user that has a nickname as it is, or deletes it. -/
theorem handle_keeps_user (s s1 : Server) (e : Event) (p : Nat) (u : User)
    (h : handle s e = some s1) (hu : deref s.heap p = some u) (hn : u.nick ≠ []) :
    deref s1.heap p = some u ∨ deref s1.heap p = none := by
  have hp : p ≠ 0 := by
    intro h0; simp [deref, h0] at hu
  have hu' : mapAt s.heap p = some u := by simpa [deref, hp] using hu
  cases e with
  | accept r a =>
    simp only [handle, Option.some.injEq] at h
    subst h
    left
    rw [onAccept_eq]
    simp [deref, hp, mapAt_append, hu']
  | data gs q d =>
    simp only [handle] at h
    rcases onData_heap gs s s1 q d h with hH | ⟨v, hv, hvn, hH⟩
    · left; rw [hH]; exact hu
    · left
      rw [hH]
      by_cases hqp : p = q
      · subst hqp
        rw [hu] at hv
        simp only [Option.some.injEq] at hv
        subst hv
        exact absurd hvn hn
      · rw [deref_store_other _ _ _ _ hqp]; exact hu
  | close q =>
    simp only [handle] at h
    unfold onClose at h
    cases hv : deref s.heap q with
    | none => rw [hv] at h; cases h
    | some v =>
      rw [hv] at h
      simp only [] at h
      rcases removeUser_heap s s1 v.id h with hH | ⟨k, hH⟩
      · left; rw [hH]; exact hu
      · rw [hH]
        by_cases hk : p = k
        · right
          subst hk
          simp [deref, hp, mapAt_mapErase_self]
        · left
          simp only [deref, hp, if_false]
          rw [mapAt_mapErase _ _ _ hk]; exact hu'

/-- In a well-formed state a registered pointer points to a live `User`. -/
theorem registered_live (s : Server) (p : Nat) (hwf : WellFormed s) (hreg : Registered s p) :
    deref s.heap p ≠ none := by
  simp only [Registered, List.mem_map] at hreg
  obtain ⟨e, he, rfl⟩ := hreg
  obtain ⟨h0, hs⟩ := hwf.1 e he
  obtain ⟨v, hv⟩ := Option.isSome_iff_exists.mp hs
  simp [deref, h0, hv]

/-- In a well-formed state one handled event leaves the state well formed. -/
theorem handle_wellFormed (s s1 : Server) (e : Event) (h : handle s e = some s1)
    (hwf : WellFormed s) : WellFormed s1 :=
  runEvents_wellFormed [e] s s1 hwf (by simp only [runEvents, h])

/-- From a well-formed state: a user with a nickname that stays registered while the
events are handled is the same object afterwards. -/
theorem runEvents_keeps_user (es : List Event) : ∀ (s s1 : Server) (p : Nat) (u : User),
    WellFormed s → deref s.heap p = some u → u.nick ≠ [] → runEvents s es = some s1 →
    staysRegistered p s es = true → deref s1.heap p = some u := by
  induction es with
  | nil =>
    intro s s1 p u _ hu _ hrun _
    simp only [runEvents, Option.some.injEq] at hrun
    subst hrun; exact hu
  | cons e es ih =>
    intro s s1 p u hwf hu hn hrun hreg
    simp only [runEvents] at hrun
    cases he : handle s e with
    | none => rw [he] at hrun; cases hrun
    | some s0 =>
      rw [he] at hrun
      simp only [staysRegistered, he, Bool.and_eq_true, decide_eq_true_eq] at hreg
      have hwf0 := handle_wellFormed s s0 e he hwf
      have hu0 : deref s0.heap p = some u := by
        rcases handle_keeps_user s s0 e p u he hu hn with h | h
        · exact h
        · exact absurd h (registered_live s0 p hwf0 hreg.1)
      exact ih s0 s1 p u hwf0 hu0 hn hrun hreg.2

/-- C11. No transition back from Active.  Let `s` be a state that the server reaches from
its start, and `u` a user of `s` with a non-empty nickname.  After any further events
(data of any content for this or any other user, accepts, closes) that are handled while
the user stays in the registry, the `User` object is exactly what it was: in particular
its nickname is the one it had.  A call of `broadcast` does not change it either. -/
theorem nickname_never_changes (es0 es : List Event) (s s1 : Server) (p : Nat) (u : User)
    (h0 : runEvents Server.init es0 = some s) (hu : deref s.heap p = some u)
    (hn : u.nick ≠ []) (hrun : runEvents s es = some s1)
    (hreg : staysRegistered p s es = true) :
    deref s1.heap p = some u ∧
    ∀ (gs : Nat → DyadState) (m : Str) (s2 : Server),
      broadcast gs s1 m = some s2 → deref s2.heap p = some u := by
  have hwf : WellFormed s := runEvents_wellFormed es0 Server.init s wellFormed_init h0
  have h1 := runEvents_keeps_user es s s1 p u hwf hu hn hrun hreg
  refine ⟨h1, ?_⟩
  intro gs m s2 hb
  obtain ⟨-, -, hH⟩ := broadcast_fields gs s1 s2 m hb
  rw [hH]; exact h1

/-- Witness for C11: after `exTrace`, `exAlice` has the nickname "Alice"; the events
`exEvents` are handled and `exAlice` is the same afterwards. -/
theorem nickname_never_changes_witness :
    runEvents Server.init exTrace = some exAfterTrace ∧
    deref exAfterTrace.heap 1 = some exAlice ∧ exAlice.nick ≠ [] ∧
    runEvents exAfterTrace exEvents = some exAfterEvents ∧
    staysRegistered 1 exAfterTrace exEvents = true ∧
    deref exAfterEvents.heap 1 = some exAlice ∧
    ∀ (gs : Nat → DyadState) (m : Str) (s2 : Server),
      broadcast gs exAfterEvents m = some s2 → deref s2.heap 1 = some exAlice :=
  ⟨by decide, by decide, by decide, by decide, by decide,
    nickname_never_changes exTrace exEvents exAfterTrace exAfterEvents 1 exAlice
      (by decide) (by decide) (by decide) (by decide) (by decide)⟩

end Netchat
